import Mathlib

/-!
Verification of the FlurryPP overset-connectivity core against its
design document.  The visible sources are funcs.cpp, solver.cpp,
geo.hpp and overComm.hpp; machine doubles are modelled as rationals.
Member functions of overComm whose bodies are not part of the visible
sources are modelled from the specification; every such definition is
marked in its doc comment.
-/

namespace Flurry

/-- Coordinate record used throughout the code (struct point): three components. -/
structure point where
  x : ℚ
  y : ℚ
  z : ℚ
deriving DecidableEq

/-- Resize semantics of a std vector of doubles: keep the first n entries and
value-initialize any newly created entries to 0. -/
def vecResize (v : List ℚ) (n : ℕ) : List ℚ :=
  v.take n ++ List.replicate (n - v.length) 0

/-- Quadrilateral shape functions, pointer overload (funcs.cpp lines 23-46).
The switch writes the nNodes shape values into the output buffer for nNodes
equal to 4 or 8; it has no default branch, so any other node count leaves the
buffer untouched. -/
def shape_quad (in_rs : point) (out_shape : List ℚ) (nNodes : ℤ) : List ℚ :=
  let xi := in_rs.x
  let eta := in_rs.y
  if nNodes = 4 then
    [0.25*(1-xi)*(1-eta),
     0.25*(1+xi)*(1-eta),
     0.25*(1+xi)*(1+eta),
     0.25*(1-xi)*(1+eta)] ++ out_shape.drop 4
  else if nNodes = 8 then
    [-0.25*(1-xi)*(1-eta)*(1+eta+xi),
     -0.25*(1+xi)*(1-eta)*(1+eta-xi),
     -0.25*(1+xi)*(1+eta)*(1-eta-xi),
     -0.25*(1-xi)*(1+eta)*(1-eta+xi),
     0.5*(1-xi)*(1+xi)*(1-eta),
     0.5*(1+xi)*(1+eta)*(1-eta),
     0.5*(1-xi)*(1+xi)*(1+eta),
     0.5*(1-xi)*(1+eta)*(1-eta)] ++ out_shape.drop 8
  else out_shape

/-- Quadrilateral shape functions, vector overload (funcs.cpp lines 17-21):
resize the output vector to nNodes, then call the pointer overload on its data. -/
def shape_quad_vec (in_rs : point) (out_shape : List ℚ) (nNodes : ℤ) : List ℚ :=
  shape_quad in_rs (vecResize out_shape nNodes.toNat) nNodes

/-- Hexahedral shape functions, pointer overload (funcs.cpp lines 54-98).
The 20-node case is written here with the corner loop over the sign tables
XI, ETA, MU unrolled and all entries listed in index order; the switch has no
default branch, so any other node count leaves the buffer untouched. -/
def shape_hex (in_rst : point) (out_shape : List ℚ) (nNodes : ℤ) : List ℚ :=
  let xi := in_rst.x
  let eta := in_rst.y
  let mu := in_rst.z
  if nNodes = 8 then
    [0.125*(1-xi)*(1-eta)*(1-mu),
     0.125*(1+xi)*(1-eta)*(1-mu),
     0.125*(1+xi)*(1+eta)*(1-mu),
     0.125*(1-xi)*(1+eta)*(1-mu),
     0.125*(1-xi)*(1-eta)*(1+mu),
     0.125*(1+xi)*(1-eta)*(1+mu),
     0.125*(1+xi)*(1+eta)*(1+mu),
     0.125*(1-xi)*(1+eta)*(1+mu)] ++ out_shape.drop 8
  else if nNodes = 20 then
    [0.125*(1-xi)*(1-eta)*(1-mu)*(-xi-eta-mu-2),
     0.125*(1+xi)*(1-eta)*(1-mu)*(xi-eta-mu-2),
     0.125*(1+xi)*(1+eta)*(1-mu)*(xi+eta-mu-2),
     0.125*(1-xi)*(1+eta)*(1-mu)*(-xi+eta-mu-2),
     0.125*(1-xi)*(1-eta)*(1+mu)*(-xi-eta+mu-2),
     0.125*(1+xi)*(1-eta)*(1+mu)*(xi-eta+mu-2),
     0.125*(1+xi)*(1+eta)*(1+mu)*(xi+eta+mu-2),
     0.125*(1-xi)*(1+eta)*(1+mu)*(-xi+eta+mu-2),
     0.25*(1-xi*xi)*(1-eta)*(1-mu),
     0.25*(1-eta*eta)*(1+xi)*(1-mu),
     0.25*(1-xi*xi)*(1+eta)*(1-mu),
     0.25*(1-eta*eta)*(1-xi)*(1-mu),
     0.25*(1-mu*mu)*(1-xi)*(1-eta),
     0.25*(1-mu*mu)*(1+xi)*(1-eta),
     0.25*(1-mu*mu)*(1+xi)*(1+eta),
     0.25*(1-mu*mu)*(1-xi)*(1+eta),
     0.25*(1-xi*xi)*(1-eta)*(1+mu),
     0.25*(1-eta*eta)*(1+xi)*(1+mu),
     0.25*(1-xi*xi)*(1+eta)*(1+mu),
     0.25*(1-eta*eta)*(1-xi)*(1+mu)] ++ out_shape.drop 20
  else out_shape

/-- Hexahedral shape functions, vector overload (funcs.cpp lines 48-52):
resize the output vector to nNodes, then call the pointer overload on its data. -/
def shape_hex_vec (in_rst : point) (out_shape : List ℚ) (nNodes : ℤ) : List ℚ :=
  shape_hex in_rst (vecResize out_shape nNodes.toNat) nNodes

/-- Triangle shape functions (funcs.cpp lines 221-226): always three values. -/
def shape_tri (in_rs : point) (out_shape : List ℚ) : List ℚ :=
  [in_rs.x, in_rs.y, 1 - in_rs.x - in_rs.y] ++ out_shape.drop 3

/-- Tetrahedron shape functions (funcs.cpp lines 247-253): always four values. -/
def shape_tet (in_rs : point) (out_shape : List ℚ) : List ℚ :=
  [in_rs.x, in_rs.y, in_rs.z, 1 - in_rs.x - in_rs.y - in_rs.z] ++ out_shape.drop 4

/-- Entity blanking code NORMAL from geo.hpp line 40. -/
def NORMAL : ℤ := 1

/-- Entity blanking code HOLE from geo.hpp line 41. -/
def HOLE : ℤ := 0

/-- Entity blanking code FRINGE from geo.hpp line 42. -/
def FRINGE : ℤ := -1

/-- C6: the entity blanking classification takes exactly the three code values
NORMAL = 1, HOLE = 0 and FRINGE = -1, and the three codes are pairwise distinct. -/
theorem blanking_codes :
    NORMAL = 1 ∧ HOLE = 0 ∧ FRINGE = -1 ∧
    NORMAL ≠ HOLE ∧ NORMAL ≠ FRINGE ∧ HOLE ≠ FRINGE := by
  refine ⟨rfl, rfl, rfl, ?_, ?_, ?_⟩ <;> decide

/-- C9: partition of unity.  At every reference point the 4-node and 8-node
quadrilateral shape values, the 8-node and 20-node hexahedral shape values,
the triangle shape values and the tetrahedron shape values each sum to 1. -/
theorem shape_partition_of_unity (rs : point) :
    (shape_quad rs (List.replicate 4 0) 4).sum = 1 ∧
    (shape_quad rs (List.replicate 8 0) 8).sum = 1 ∧
    (shape_hex rs (List.replicate 8 0) 8).sum = 1 ∧
    (shape_hex rs (List.replicate 20 0) 20).sum = 1 ∧
    (shape_tri rs (List.replicate 3 0)).sum = 1 ∧
    (shape_tet rs (List.replicate 4 0)).sum = 1 := by
  refine ⟨?_, ?_, ?_, ?_, ?_, ?_⟩ <;>
    simp [shape_quad, shape_hex, shape_tri, shape_tet] <;> ring

/-- C10: calling shape_quad with a node count other than 4 or 8, or shape_hex
with a node count other than 8 or 20, writes nothing and signals no error: the
pointer overloads return the buffer unmodified, and the vector overloads merely
resize it, value-initializing any newly created entries to 0. -/
theorem shape_unsupported_node_count (rs : point) (buf : List ℚ) (n m : ℤ)
    (hq4 : n ≠ 4) (hq8 : n ≠ 8) (hh8 : m ≠ 8) (hh20 : m ≠ 20) :
    shape_quad rs buf n = buf ∧
    shape_quad_vec rs buf n = buf.take n.toNat ++ List.replicate (n.toNat - buf.length) 0 ∧
    shape_hex rs buf m = buf ∧
    shape_hex_vec rs buf m = buf.take m.toNat ++ List.replicate (m.toNat - buf.length) 0 := by
  refine ⟨?_, ?_, ?_, ?_⟩ <;>
    simp [shape_quad, shape_quad_vec, shape_hex, shape_hex_vec, vecResize,
      hq4, hq8, hh8, hh20]

/-- Witness for C10 at a concrete unsupported node count. -/
theorem shape_unsupported_node_count_witness :
    shape_quad ⟨1, 2, 3⟩ [5, 6] 5 = [5, 6] ∧
    shape_quad_vec ⟨1, 2, 3⟩ [5, 6] 5 = [5, 6, 0, 0, 0] ∧
    shape_hex ⟨1, 2, 3⟩ [5, 6] 9 = [5, 6] ∧
    shape_hex_vec ⟨1, 2, 3⟩ [5, 6] 9 = [5, 6, 0, 0, 0, 0, 0, 0, 0] := by
  have h := shape_unsupported_node_count ⟨1, 2, 3⟩ [5, 6] 5 9
    (by decide) (by decide) (by decide) (by decide)
  simpa using h

/-- One run of the omp reduction loop of solver calcDt (solver.cpp lines 194-197):
starting from init, fold dt = min(dt, eles[i].calcDt()) over the element list. -/
def dtFold (dts : List ℚ) (init : WithTop ℚ) : WithTop ℚ :=
  dts.foldl (fun acc d => min acc (d : WithTop ℚ)) init

/-- Local part of solver calcDt (solver.cpp lines 190-198): dt starts at INFINITY,
modelled as the top element, and is reduced by min over every element. -/
def calcDt_local (dts : List ℚ) : WithTop ℚ := dtFold dts ⊤

/-- solver calcDt (solver.cpp lines 190-205): the local minimum of each rank is
further reduced by MPI_Allreduce with MPI_MIN across all ranks, and the result
is stored into params dt. -/
def calcDt (rankDts : List (List ℚ)) : WithTop ℚ :=
  (rankDts.map calcDt_local).foldl min ⊤

theorem dtFold_eq_min (dts : List ℚ) (a : WithTop ℚ) :
    dtFold dts a = min a (calcDt_local dts) := by
  induction dts generalizing a with
  | nil => simp [dtFold, calcDt_local]
  | cons d t ih =>
    show dtFold t (min a (d : WithTop ℚ)) = min a (dtFold t (min ⊤ (d : WithTop ℚ)))
    rw [ih (min a (d : WithTop ℚ)), ih (min ⊤ (d : WithTop ℚ)), min_top_left, min_assoc]

theorem calcDt_local_append (u v : List ℚ) :
    calcDt_local (u ++ v) = min (calcDt_local u) (calcDt_local v) := by
  have h : dtFold (u ++ v) ⊤ = dtFold v (dtFold u ⊤) := by
    simp [dtFold, List.foldl_append]
  rw [calcDt_local, h, dtFold_eq_min]
  rfl

theorem calcDt_local_le (dts : List ℚ) (d : ℚ) (hd : d ∈ dts) :
    calcDt_local dts ≤ (d : WithTop ℚ) := by
  induction dts with
  | nil => cases hd
  | cons a t ih =>
    have hcons : calcDt_local (a :: t) = min (a : WithTop ℚ) (calcDt_local t) := by
      have := calcDt_local_append [a] t
      simpa [calcDt_local, dtFold] using this
    rw [hcons]
    rcases List.mem_cons.mp hd with h | h
    · subst h; exact min_le_left _ _
    · exact le_trans (min_le_right _ _) (ih h)

theorem calcDt_local_mem (dts : List ℚ) (hne : dts ≠ []) :
    ∃ d ∈ dts, calcDt_local dts = (d : WithTop ℚ) := by
  induction dts with
  | nil => cases hne rfl
  | cons a t ih =>
    have hcons : calcDt_local (a :: t) = min (a : WithTop ℚ) (calcDt_local t) := by
      have := calcDt_local_append [a] t
      simpa [calcDt_local, dtFold] using this
    rcases eq_or_ne t [] with ht | ht
    · subst ht
      exact ⟨a, List.mem_cons_self a _, by simp [hcons, calcDt_local, dtFold]⟩
    · rcases ih ht with ⟨d, hdmem, hdeq⟩
      rcases min_choice ((a : WithTop ℚ)) (calcDt_local t) with h | h
      · exact ⟨a, List.mem_cons_self a _, by rw [hcons, h]⟩
      · exact ⟨d, List.mem_cons_of_mem _ hdmem, by rw [hcons, h, hdeq]⟩

theorem minFold_eq_min (l : List (WithTop ℚ)) (a : WithTop ℚ) :
    l.foldl min a = min a (l.foldl min ⊤) := by
  induction l generalizing a with
  | nil => simp
  | cons b t ih =>
    show t.foldl min (min a b) = min a (t.foldl min (min ⊤ b))
    rw [ih (min a b), ih (min ⊤ b), min_top_left, min_assoc]

theorem chunkReduce_eq (chunks : List (List ℚ)) :
    (chunks.map calcDt_local).foldl min ⊤ = calcDt_local chunks.flatten := by
  induction chunks with
  | nil => simp [calcDt_local, dtFold]
  | cons c cs ih =>
    simp only [List.map_cons, List.foldl_cons, List.flatten_cons]
    rw [minFold_eq_min, ih, calcDt_local_append]
    simp

/-- C7: for a nonempty global element list, solver calcDt computes exactly the
minimum over all elements of eles[i].calcDt(), further reduced to a global
minimum across all MPI ranks; and because min-reduction is performed as a
reduction, any partition of the work into per-thread chunks whose
concatenation is the element list yields the same value. -/
theorem calcDt_min_reduction (rankDts : List (List ℚ))
    (hne : rankDts.flatten ≠ []) :
    (∀ d ∈ rankDts.flatten, calcDt rankDts ≤ (d : WithTop ℚ)) ∧
    (∃ d ∈ rankDts.flatten, calcDt rankDts = (d : WithTop ℚ)) ∧
    (∀ chunks : List (List ℚ), chunks.flatten = rankDts.flatten →
      (chunks.map calcDt_local).foldl min ⊤ = calcDt rankDts) := by
  have hglob : calcDt rankDts = calcDt_local rankDts.flatten := chunkReduce_eq rankDts
  refine ⟨?_, ?_, ?_⟩
  · intro d hd
    rw [hglob]
    exact calcDt_local_le _ _ hd
  · rw [hglob]
    exact calcDt_local_mem _ hne
  · intro chunks hch
    rw [chunkReduce_eq chunks, hch, hglob]

/-- Witness for C7 on a concrete two-rank element list. -/
theorem calcDt_min_reduction_witness :
    (∀ d ∈ ([[3, 1], [2]] : List (List ℚ)).flatten,
      calcDt [[3, 1], [2]] ≤ (d : WithTop ℚ)) ∧
    (∃ d ∈ ([[3, 1], [2]] : List (List ℚ)).flatten,
      calcDt [[3, 1], [2]] = (d : WithTop ℚ)) ∧
    (∀ chunks : List (List ℚ), chunks.flatten = ([[3, 1], [2]] : List (List ℚ)).flatten →
      (chunks.map calcDt_local).foldl min ⊤ = calcDt [[3, 1], [2]]) :=
  calcDt_min_reduction [[3, 1], [2]] (by decide)

/-- Modelled from the spec: the body of the overComm gatherData template
(declared at overComm.hpp lines 120-121) is not among the visible sources.
Each rank of the intra-grid scope contributes its local list of values (each
entry standing for one stride-sized piece); the gather returns the per-rank
piece counts together with the merged list, which concatenates the per-rank
contributions in ascending rank order, keeping each contribution in its
original local order. -/
def gatherData {T : Type} (ranks : List (List T)) : List ℕ × List T :=
  (ranks.map List.length, ranks.flatten)

/-- Offset of rank r in the merged gather output: total length contributed by
all ranks before it. -/
def rankOffset {T : Type} (ranks : List (List T)) (r : ℕ) : ℕ :=
  ((ranks.take r).map List.length).sum

theorem flatten_getD_offset {T : Type} (ranks : List (List T)) (d : T)
    (r j : ℕ) (hr : r < ranks.length) (hj : j < (ranks.getD r []).length) :
    ranks.flatten.getD (rankOffset ranks r + j) d = (ranks.getD r []).getD j d := by
  induction ranks generalizing r with
  | nil => cases hr
  | cons c cs ih =>
    cases r with
    | zero =>
      simp only [rankOffset, List.take_zero, List.map_nil, List.sum_nil,
        Nat.zero_add, List.flatten_cons, List.getD_cons_zero] at *
      exact List.getD_append _ _ _ _ hj
    | succ r =>
      simp only [List.getD_cons_succ] at hj ⊢
      have hoff : rankOffset (c :: cs) (r + 1) = c.length + rankOffset cs r := by
        simp [rankOffset, List.take_succ_cons]
      rw [List.flatten_cons, hoff]
      rw [List.getD_append_right _ _ _ _ (by omega)]
      have : c.length + rankOffset cs r + j - c.length = rankOffset cs r + j := by omega
      rw [this]
      exact ih r (Nat.lt_of_succ_lt_succ hr) hj

/-- C5: the merged output of the generic gather is ordered by ascending
contributing rank and preserves, within the block of each rank, that rank
in its original local order: the value at global position
rankOffset ranks r + j is the j-th local value of rank r, and the per-rank
counts are reported alongside. -/
theorem gatherData_stable_order {T : Type} (ranks : List (List T)) (d : T)
    (r j : ℕ) (hr : r < ranks.length) (hj : j < (ranks.getD r []).length) :
    (gatherData ranks).1 = ranks.map List.length ∧
    (gatherData ranks).2.getD (rankOffset ranks r + j) d = (ranks.getD r []).getD j d := by
  exact ⟨rfl, flatten_getD_offset ranks d r j hr hj⟩

/-- Witness for C5 with an integer payload and a rational payload. -/
theorem gatherData_stable_order_witness :
    ((gatherData [[10], [20, 30]] : List ℕ × List ℤ).1 = [1, 2] ∧
      (gatherData [[10], [20, 30]] : List ℕ × List ℤ).2.getD
        (rankOffset [[10], [20, 30]] 1 + 1) 0 = 30) ∧
    ((gatherData [[(5 : ℚ)], [7, 9]]).1 = [1, 2] ∧
      (gatherData [[(5 : ℚ)], [7, 9]]).2.getD
        (rankOffset [[(5 : ℚ)], [7, 9]] 1 + 0) 0 = 7) := by
  constructor
  · have h := gatherData_stable_order ([[10], [20, 30]] : List (List ℤ)) 0 1 1
      (by decide) (by decide)
    simpa using h
  · have h := gatherData_stable_order ([[(5 : ℚ)], [7, 9]]) 0 1 0
      (by decide) (by norm_num)
    simpa using h

/-- Modelled from the spec: the plan refresh of the exchange channel (the body
of the overComm plan computation is not among the visible sources).  After a
donor search, found A X is the list of receptor-point IDs of grid X that grid
A matched; the refresh sets nPtsSend on grid A for grid X to the length of
that list. -/
def nPtsSend {n : ℕ} (found : Fin n → Fin n → List ℕ) (A X : Fin n) : ℕ :=
  (found A X).length

/-- Modelled from the spec: nPtsRecv on grid X from grid A is the count that
grid A communicates across the inter-grid scope, namely the length of the
found list that grid A holds for grid X. -/
def nPtsRecv {n : ℕ} (found : Fin n → Fin n → List ℕ) (X A : Fin n) : ℕ :=
  nPtsSend found A X

/-- Modelled from the spec: all receptor points grid A supplies, concatenated
over destination grids. -/
def suppliedPts {n : ℕ} (found : Fin n → Fin n → List ℕ) (A : Fin n) : List ℕ :=
  (List.ofFn (found A)).flatten

/-- C2: after every plan refresh the send/receive plan is globally consistent.
On each grid A the nPtsSend entries sum to the total number of receptor points
grid A supplies, and for every ordered pair of grids the nPtsSend entry of one
equals the nPtsRecv entry of the other. -/
theorem plan_consistency {n : ℕ} (found : Fin n → Fin n → List ℕ) (A : Fin n) :
    (∑ g, nPtsSend found A g) = (suppliedPts found A).length ∧
    ∀ X, nPtsSend found A X = nPtsRecv found X A := by
  refine ⟨?_, fun X => rfl⟩
  rw [suppliedPts, List.length_flatten, List.map_ofFn, List.sum_ofFn]
  rfl

/-- Modelled from the spec: state of the exchange channel between reconnection
events.  planFresh records whether the plan refresh has completed since the
last reconnection event; uIn holds the current receptor values of one solved
field; matched holds, for every local receptor point, the donor-interpolated
value when some grid matched the point, and none when the point is orphaned. -/
structure ExchangeState where
  planFresh : Bool
  uIn : List ℚ
  matched : List (Option ℚ)
deriving DecidableEq

/-- Modelled from the spec: a reconnection event invalidates the send/receive
plan until the next plan refresh completes. -/
def reconnectionEvent (s : ExchangeState) : ExchangeState :=
  { s with planFresh := false }

/-- Modelled from the spec: the plan refresh runs to completion on all
inter-grid peers and marks the plan usable for subsequent exchanges. -/
def refreshPlan (s : ExchangeState) : ExchangeState :=
  { s with planFresh := true }

/-- Modelled from the spec: the per-step orphan count reported to the solver,
the number of receptor points matched by no grid. -/
def orphanCountL (matched : List (Option ℚ)) : ℕ :=
  (matched.filter Option.isNone).length

/-- Orphan count of an exchange-channel state. -/
def orphanCount (s : ExchangeState) : ℕ :=
  orphanCountL s.matched

/-- Modelled from the spec: matchOversetPoints (declared at overComm.hpp lines
106-107, body not among the visible sources) queries every grid for each
receptor point and stores the interpolated donor value for a matched point and
none for an orphaned point. -/
def matchOversetPoints (pts : List point) (donor : point → Option ℚ) :
    List (Option ℚ) :=
  pts.map donor

/-- Modelled from the spec: exchangeOversetData (declared at overComm.hpp lines
112-113, body not among the visible sources).  Run against a stale plan it
fails fast with a loud error and sends nothing; run against a fresh plan it
writes the donor value of every matched receptor point into U_in, leaves every
orphaned point at its previous value, and reports the orphan count, never
failing on account of orphans. -/
def exchangeOversetData (s : ExchangeState) : Except String (List ℚ × ℕ) :=
  if s.planFresh then
    Except.ok (List.zipWith (fun old m => m.getD old) s.uIn s.matched, orphanCount s)
  else
    Except.error "exchangeOversetData: stale send/receive plan"

/-- C3: calling the data exchange without a completed plan refresh after the
most recent reconnection event is detected and fails fast with a loud error,
sending nothing; after a plan refresh the exchange succeeds. -/
theorem exchange_rejects_stale_plan (s : ExchangeState) :
    exchangeOversetData (reconnectionEvent s) =
      Except.error "exchangeOversetData: stale send/receive plan" ∧
    (exchangeOversetData (refreshPlan s)).isOk = true := by
  exact ⟨rfl, rfl⟩

/-- C4: a receptor point matched by no grid is counted and reported as
orphaned, keeps its previous value in U_in, and raises no error past the
exchange boundary; the orphan count equals the number of unmatched points. -/
theorem orphan_points_recoverable (s : ExchangeState) (hf : s.planFresh = true)
    (hl : s.matched.length = s.uIn.length) (i : ℕ) (hi : i < s.uIn.length)
    (ho : s.matched.getD i (some 0) = none) :
    (∃ res, exchangeOversetData s = Except.ok res ∧
      res.1.getD i 0 = s.uIn.getD i 0 ∧ res.2 = orphanCount s) ∧
    ∀ (pts : List point) (donor : point → Option ℚ),
      orphanCountL (matchOversetPoints pts donor) =
        (pts.filter fun q => (donor q).isNone).length := by
  constructor
  · refine ⟨(List.zipWith (fun old m => m.getD old) s.uIn s.matched, orphanCount s),
      by simp [exchangeOversetData, hf], ?_, rfl⟩
    have hiz : i < (List.zipWith (fun old m => m.getD old) s.uIn s.matched).length := by
      rw [List.length_zipWith]
      omega
    have him : i < s.matched.length := by omega
    rw [List.getD_eq_getElem _ _ hiz, List.getElem_zipWith,
      List.getD_eq_getElem _ _ hi]
    have hm : s.matched[i] = none := by
      rw [List.getD_eq_getElem _ _ him] at ho
      exact ho
    rw [hm]
    rfl
  · intro pts donor
    rw [orphanCountL, matchOversetPoints, List.filter_map, List.length_map]
    rfl

/-- Witness for C4 on a concrete fresh state with one orphaned point. -/
theorem orphan_points_recoverable_witness :
    (∃ res, exchangeOversetData ⟨true, [5, 7], [none, some 3]⟩ = Except.ok res ∧
      res.1.getD 0 0 = (ExchangeState.mk true [5, 7] [none, some 3]).uIn.getD 0 0 ∧
      res.2 = orphanCount ⟨true, [5, 7], [none, some 3]⟩) ∧
    ∀ (pts : List point) (donor : point → Option ℚ),
      orphanCountL (matchOversetPoints pts donor) =
        (pts.filter fun q => (donor q).isNone).length :=
  orphan_points_recoverable ⟨true, [5, 7], [none, some 3]⟩ rfl (by decide) 0
    (by decide) (by decide)

/-- Comparison used by the std sort call inside getOrder: the lexicographic
order on (value, original index) pairs. -/
def pairLe (a b : ℚ × ℕ) : Bool :=
  decide (a.1 < b.1) || (decide (a.1 = b.1) && decide (a.2 ≤ b.2))

/-- The list vp built by getOrder (funcs.cpp lines 299-303): every entry of
data paired with its original index. -/
def vpList (data : List ℚ) : List (ℚ × ℕ) :=
  (List.range data.length).map (fun i => (data.getD i 0, i))

/-- getOrder (funcs.cpp lines 297-314): build the (value, index) pairs, sort
them ascending with ties resolved by the original index, and return the index
column of the sorted list. -/
def getOrder (data : List ℚ) : List ℕ :=
  ((vpList data).mergeSort pairLe).map (fun p => p.2)

theorem pairLe_iff (a b : ℚ × ℕ) :
    pairLe a b = true ↔ a.1 < b.1 ∨ (a.1 = b.1 ∧ a.2 ≤ b.2) := by
  simp [pairLe]

theorem pairLe_trans (a b c : ℚ × ℕ) (hab : pairLe a b = true)
    (hbc : pairLe b c = true) : pairLe a c = true := by
  rw [pairLe_iff] at hab hbc ⊢
  rcases hab with h1 | ⟨h1, h1i⟩ <;> rcases hbc with h2 | ⟨h2, h2i⟩
  · exact Or.inl (lt_trans h1 h2)
  · exact Or.inl (lt_of_lt_of_le h1 (le_of_eq h2))
  · exact Or.inl (lt_of_le_of_lt (le_of_eq h1) h2)
  · exact Or.inr ⟨h1.trans h2, le_trans h1i h2i⟩

theorem pairLe_total (a b : ℚ × ℕ) : (pairLe a b || pairLe b a) = true := by
  rw [Bool.or_eq_true, pairLe_iff, pairLe_iff]
  rcases lt_trichotomy a.1 b.1 with h | h | h
  · exact Or.inl (Or.inl h)
  · rcases Nat.le_total a.2 b.2 with hi | hi
    · exact Or.inl (Or.inr ⟨h, hi⟩)
    · exact Or.inr (Or.inr ⟨h.symm, hi⟩)
  · exact Or.inr (Or.inl h)

theorem vpList_map_snd (data : List ℚ) :
    (vpList data).map (fun p => p.2) = List.range data.length := by
  rw [vpList, List.map_map]
  exact List.map_id _

theorem mem_vpList_fst (data : List ℚ) (p : ℚ × ℕ) (hp : p ∈ vpList data) :
    p.1 = data.getD p.2 0 := by
  rcases List.mem_map.mp hp with ⟨i, _, rfl⟩
  rfl

/-- C8: getOrder returns a permutation of the index range 0 to n-1 that lists
the data entries in non-decreasing order, and whenever two entries are equal
the one with the smaller original index comes first (stable ascending order). -/
theorem getOrder_stable_sort (data : List ℚ) :
    (getOrder data).Perm (List.range data.length) ∧
    (getOrder data).Pairwise
      (fun i j => data.getD i 0 < data.getD j 0 ∨
        (data.getD i 0 = data.getD j 0 ∧ i < j)) := by
  constructor
  · have h := (List.mergeSort_perm (vpList data) pairLe).map (fun p => p.2)
    rw [vpList_map_snd] at h
    exact h
  · apply List.pairwise_map.mpr
    have hs := List.sorted_mergeSort pairLe_trans pairLe_total (vpList data)
    have hperm : (vpList data).Perm ((vpList data).mergeSort pairLe) :=
      (List.mergeSort_perm (vpList data) pairLe).symm
    have hne0 : (vpList data).Pairwise (fun a b : ℚ × ℕ => a.2 ≠ b.2) := by
      apply List.pairwise_map.mp
      rw [vpList_map_snd]
      exact (List.pairwise_lt_range _).imp (fun h => Nat.ne_of_lt h)
    have hne : ((vpList data).mergeSort pairLe).Pairwise
        (fun a b : ℚ × ℕ => a.2 ≠ b.2) :=
      hperm.pairwise hne0 (fun h => Ne.symm h)
    refine List.Pairwise.imp_of_mem ?_ (hs.and hne)
    intro a b ha hb hR
    have hva : a.1 = data.getD a.2 0 :=
      mem_vpList_fst data a
        (((List.mergeSort_perm (vpList data) pairLe).mem_iff).mp ha)
    have hvb : b.1 = data.getD b.2 0 :=
      mem_vpList_fst data b
        (((List.mergeSort_perm (vpList data) pairLe).mem_iff).mp hb)
    rcases hR with ⟨hle, hnab⟩
    rw [pairLe_iff] at hle
    rw [← hva, ← hvb]
    rcases hle with h | ⟨h, hi⟩
    · exact Or.inl h
    · exact Or.inr ⟨h, Nat.lt_of_le_of_ne hi hnab⟩

/-- Derivatives of the 4-node quadrilateral shape functions (dshape_quad,
funcs.cpp lines 107-117), listed per node as the pair of derivatives with
respect to xi and eta. -/
def dshape_quad4 (in_rs : point) : List (ℚ × ℚ) :=
  let xi := in_rs.x
  let eta := in_rs.y
  [(-0.25*(1-eta), -0.25*(1-xi)),
   ( 0.25*(1-eta), -0.25*(1+xi)),
   ( 0.25*(1+eta),  0.25*(1+xi)),
   (-0.25*(1+eta),  0.25*(1-xi))]

/-- Derivatives of the 8-node hexahedral shape functions (dshape_hex,
funcs.cpp lines 149-179), listed per node as the triple of derivatives with
respect to xi, eta and mu. -/
def dshape_hex8 (in_rst : point) : List (ℚ × ℚ × ℚ) :=
  let xi := in_rst.x
  let eta := in_rst.y
  let mu := in_rst.z
  [(-0.125*(1-eta)*(1-mu), -0.125*(1-xi)*(1-mu), -0.125*(1-xi)*(1-eta)),
   ( 0.125*(1-eta)*(1-mu), -0.125*(1+xi)*(1-mu), -0.125*(1+xi)*(1-eta)),
   ( 0.125*(1+eta)*(1-mu),  0.125*(1+xi)*(1-mu), -0.125*(1+xi)*(1+eta)),
   (-0.125*(1+eta)*(1-mu),  0.125*(1-xi)*(1-mu), -0.125*(1-xi)*(1+eta)),
   (-0.125*(1-eta)*(1+mu), -0.125*(1-xi)*(1+mu),  0.125*(1-xi)*(1-eta)),
   ( 0.125*(1-eta)*(1+mu), -0.125*(1+xi)*(1+mu),  0.125*(1+xi)*(1-eta)),
   ( 0.125*(1+eta)*(1+mu),  0.125*(1+xi)*(1+mu),  0.125*(1+xi)*(1+eta)),
   (-0.125*(1+eta)*(1+mu),  0.125*(1-xi)*(1+mu),  0.125*(1-xi)*(1+eta))]

/-- Physical position of a reference point inside a 4-node quadrilateral donor
with node coordinates xv: the shape_quad weighted sum of the node coordinates. -/
def mapQuad (xv : List point) (rs : point) : ℚ × ℚ :=
  let sh := shape_quad rs (List.replicate 4 0) 4
  ((List.zip sh xv).foldl (fun acc q => acc + q.1 * q.2.x) 0,
   (List.zip sh xv).foldl (fun acc q => acc + q.1 * q.2.y) 0)

/-- Physical position of a reference point inside an 8-node hexahedral donor
with node coordinates xv: the shape_hex weighted sum of the node coordinates. -/
def mapHex (xv : List point) (rst : point) : ℚ × ℚ × ℚ :=
  let sh := shape_hex rst (List.replicate 8 0) 8
  ((List.zip sh xv).foldl (fun acc q => acc + q.1 * q.2.x) 0,
   (List.zip sh xv).foldl (fun acc q => acc + q.1 * q.2.y) 0,
   (List.zip sh xv).foldl (fun acc q => acc + q.1 * q.2.z) 0)

/-- Jacobian of mapQuad, assembled from dshape_quad4, as the row-major 2 by 2
matrix (dx dxi, dx deta, dy dxi, dy deta). -/
def jacQuad (xv : List point) (rs : point) : ℚ × ℚ × ℚ × ℚ :=
  let ds := dshape_quad4 rs
  ((List.zip ds xv).foldl (fun a q => a + q.1.1 * q.2.x) 0,
   (List.zip ds xv).foldl (fun a q => a + q.1.2 * q.2.x) 0,
   (List.zip ds xv).foldl (fun a q => a + q.1.1 * q.2.y) 0,
   (List.zip ds xv).foldl (fun a q => a + q.1.2 * q.2.y) 0)

/-- Jacobian of mapHex, assembled from dshape_hex8, as the row-major 3 by 3
matrix of derivatives of (x, y, z) with respect to (xi, eta, mu). -/
def jacHex (xv : List point) (rst : point) :
    (ℚ × ℚ × ℚ) × (ℚ × ℚ × ℚ) × (ℚ × ℚ × ℚ) :=
  let ds := dshape_hex8 rst
  (((List.zip ds xv).foldl (fun a q => a + q.1.1 * q.2.x) 0,
    (List.zip ds xv).foldl (fun a q => a + q.1.2.1 * q.2.x) 0,
    (List.zip ds xv).foldl (fun a q => a + q.1.2.2 * q.2.x) 0),
   ((List.zip ds xv).foldl (fun a q => a + q.1.1 * q.2.y) 0,
    (List.zip ds xv).foldl (fun a q => a + q.1.2.1 * q.2.y) 0,
    (List.zip ds xv).foldl (fun a q => a + q.1.2.2 * q.2.y) 0),
   ((List.zip ds xv).foldl (fun a q => a + q.1.1 * q.2.z) 0,
    (List.zip ds xv).foldl (fun a q => a + q.1.2.1 * q.2.z) 0,
    (List.zip ds xv).foldl (fun a q => a + q.1.2.2 * q.2.z) 0))

/-- Squared distance of two planar positions. -/
def sqDist2 (a b : ℚ × ℚ) : ℚ := (a.1 - b.1) ^ 2 + (a.2 - b.2) ^ 2

/-- Squared distance of two spatial positions. -/
def sqDist3 (a b : ℚ × ℚ × ℚ) : ℚ :=
  (a.1 - b.1) ^ 2 + (a.2.1 - b.2.1) ^ 2 + (a.2.2 - b.2.2) ^ 2

/-- Squared convergence tolerance of the Newton point-in-element solve. -/
def tolSq : ℚ := 1 / 10 ^ 20

/-- One Newton update for the quadrilateral inverse mapping: solve the 2 by 2
linearized system by the Cramer rule; a singular Jacobian leaves the iterate
unchanged. -/
def newtonStepQuad (xv : List point) (p : ℚ × ℚ) (rs : point) : point :=
  let F := mapQuad xv rs
  let J := jacQuad xv rs
  let a := J.1
  let b := J.2.1
  let c := J.2.2.1
  let d := J.2.2.2
  let det := a * d - b * c
  if det = 0 then rs
  else
    let rx := F.1 - p.1
    let ry := F.2 - p.2
    ⟨rs.x - (d * rx - b * ry) / det, rs.y - (a * ry - c * rx) / det, 0⟩

/-- One Newton update for the hexahedral inverse mapping: solve the 3 by 3
linearized system by the Cramer rule; a singular Jacobian leaves the iterate
unchanged. -/
def newtonStepHex (xv : List point) (p : ℚ × ℚ × ℚ) (rst : point) : point :=
  let F := mapHex xv rst
  let J := jacHex xv rst
  let a := J.1.1
  let b := J.1.2.1
  let c := J.1.2.2
  let d := J.2.1.1
  let e := J.2.1.2.1
  let f := J.2.1.2.2
  let g := J.2.2.1
  let h := J.2.2.2.1
  let i := J.2.2.2.2
  let det := a * (e * i - f * h) - b * (d * i - f * g) + c * (d * h - e * g)
  if det = 0 then rst
  else
    let rx := F.1 - p.1
    let ry := F.2.1 - p.2.1
    let rz := F.2.2 - p.2.2
    let dx := (rx * (e * i - f * h) - b * (ry * i - f * rz) + c * (ry * h - e * rz)) / det
    let dy := (a * (ry * i - f * rz) - rx * (d * i - f * g) + c * (d * rz - ry * g)) / det
    let dz := (a * (e * rz - ry * h) - b * (d * rz - ry * g) + rx * (d * h - e * g)) / det
    ⟨rst.x - dx, rst.y - dy, rst.z - dz⟩

/-- Modelled from the spec: the Newton iteration of the donor search for a
quadrilateral donor (the body of matchOversetPoints is not among the visible
sources).  The iterate is accepted as soon as the mapping residual is within
tolerance; the fuel bounds the number of Newton updates. -/
def newtonQuad (xv : List point) (p : ℚ × ℚ) : ℕ → point → Option point
  | 0, rs => if sqDist2 (mapQuad xv rs) p ≤ tolSq then some rs else none
  | n + 1, rs =>
    if sqDist2 (mapQuad xv rs) p ≤ tolSq then some rs
    else newtonQuad xv p n (newtonStepQuad xv p rs)

/-- Modelled from the spec: the Newton iteration of the donor search for a
hexahedral donor, with the same acceptance rule as newtonQuad. -/
def newtonHex (xv : List point) (p : ℚ × ℚ × ℚ) : ℕ → point → Option point
  | 0, rst => if sqDist3 (mapHex xv rst) p ≤ tolSq then some rst else none
  | n + 1, rst =>
    if sqDist3 (mapHex xv rst) p ≤ tolSq then some rst
    else newtonHex xv p n (newtonStepHex xv p rst)

/-- Modelled from the spec: the point-in-element solve of the donor search for
a quadrilateral donor starts the Newton iteration at the reference-space
centroid and records the reference location only on convergence. -/
def matchPointQuad (xv : List point) (p : ℚ × ℚ) : Option point :=
  newtonQuad xv p 20 ⟨0, 0, 0⟩

/-- Modelled from the spec: the point-in-element solve of the donor search for
a hexahedral donor, analogous to matchPointQuad. -/
def matchPointHex (xv : List point) (p : ℚ × ℚ × ℚ) : Option point :=
  newtonHex xv p 20 ⟨0, 0, 0⟩

theorem newtonQuad_converged (xv : List point) (p : ℚ × ℚ) :
    ∀ (n : ℕ) (rs loc : point), newtonQuad xv p n rs = some loc →
      sqDist2 (mapQuad xv loc) p ≤ tolSq := by
  intro n
  induction n with
  | zero =>
    intro rs loc h
    by_cases hc : sqDist2 (mapQuad xv rs) p ≤ tolSq
    · have hrs : rs = loc := by simpa [newtonQuad, hc] using h
      rw [← hrs]
      exact hc
    · simp [newtonQuad, hc] at h
  | succ n ih =>
    intro rs loc h
    by_cases hc : sqDist2 (mapQuad xv rs) p ≤ tolSq
    · have hrs : rs = loc := by simpa [newtonQuad, hc] using h
      rw [← hrs]
      exact hc
    · exact ih _ _ (by simpa [newtonQuad, hc] using h)

theorem newtonHex_converged (xv : List point) (p : ℚ × ℚ × ℚ) :
    ∀ (n : ℕ) (rst loc : point), newtonHex xv p n rst = some loc →
      sqDist3 (mapHex xv loc) p ≤ tolSq := by
  intro n
  induction n with
  | zero =>
    intro rst loc h
    by_cases hc : sqDist3 (mapHex xv rst) p ≤ tolSq
    · have hrs : rst = loc := by simpa [newtonHex, hc] using h
      rw [← hrs]
      exact hc
    · simp [newtonHex, hc] at h
  | succ n ih =>
    intro rst loc h
    by_cases hc : sqDist3 (mapHex xv rst) p ≤ tolSq
    · have hrs : rst = loc := by simpa [newtonHex, hc] using h
      rw [← hrs]
      exact hc
    · exact ih _ _ (by simpa [newtonHex, hc] using h)

/-- C1: round-trip of the geometric mapping and its Newton inverse.  Whenever
the donor search records a reference location for a receptor point inside a
quadrilateral or hexahedral donor element, evaluating the donor shape
functions (shape_quad, shape_hex) at the recorded reference location and
taking the weighted sum of the donor node coordinates reproduces the physical
coordinates of the point within the numerical tolerance. -/
theorem foundLocs_round_trip (xvq : List point) (pq : ℚ × ℚ) (locq : point)
    (xvh : List point) (ph : ℚ × ℚ × ℚ) (loch : point)
    (hq : matchPointQuad xvq pq = some locq)
    (hh : matchPointHex xvh ph = some loch) :
    sqDist2 (mapQuad xvq locq) pq ≤ tolSq ∧
    sqDist3 (mapHex xvh loch) ph ≤ tolSq :=
  ⟨newtonQuad_converged xvq pq 20 ⟨0, 0, 0⟩ locq hq,
   newtonHex_converged xvh ph 20 ⟨0, 0, 0⟩ loch hh⟩

/-- Witness for C1: the centroid of the unit quadrilateral and of the unit
hexahedron round-trip exactly. -/
theorem foundLocs_round_trip_witness :
    matchPointQuad [⟨0, 0, 0⟩, ⟨1, 0, 0⟩, ⟨1, 1, 0⟩, ⟨0, 1, 0⟩] (1/2, 1/2) =
      some ⟨0, 0, 0⟩ ∧
    matchPointHex [⟨0, 0, 0⟩, ⟨1, 0, 0⟩, ⟨1, 1, 0⟩, ⟨0, 1, 0⟩,
      ⟨0, 0, 1⟩, ⟨1, 0, 1⟩, ⟨1, 1, 1⟩, ⟨0, 1, 1⟩] (1/2, 1/2, 1/2) =
      some ⟨0, 0, 0⟩ ∧
    sqDist2 (mapQuad [⟨0, 0, 0⟩, ⟨1, 0, 0⟩, ⟨1, 1, 0⟩, ⟨0, 1, 0⟩] ⟨0, 0, 0⟩)
      (1/2, 1/2) ≤ tolSq ∧
    sqDist3 (mapHex [⟨0, 0, 0⟩, ⟨1, 0, 0⟩, ⟨1, 1, 0⟩, ⟨0, 1, 0⟩,
      ⟨0, 0, 1⟩, ⟨1, 0, 1⟩, ⟨1, 1, 1⟩, ⟨0, 1, 1⟩] ⟨0, 0, 0⟩)
      (1/2, 1/2, 1/2) ≤ tolSq := by
  have h := foundLocs_round_trip
    [⟨0, 0, 0⟩, ⟨1, 0, 0⟩, ⟨1, 1, 0⟩, ⟨0, 1, 0⟩] (1/2, 1/2) ⟨0, 0, 0⟩
    [⟨0, 0, 0⟩, ⟨1, 0, 0⟩, ⟨1, 1, 0⟩, ⟨0, 1, 0⟩,
      ⟨0, 0, 1⟩, ⟨1, 0, 1⟩, ⟨1, 1, 1⟩, ⟨0, 1, 1⟩] (1/2, 1/2, 1/2) ⟨0, 0, 0⟩
    (by with_unfolding_all rfl) (by with_unfolding_all rfl)
  exact ⟨by with_unfolding_all rfl, by with_unfolding_all rfl, h.1, h.2⟩

end Flurry
